import Mathlib

/-
Verification of the harvesting-and-region-extraction pipeline of the
pivo-segmentation repository (src/dataset_collect.ipynb).

The numeric code of the notebook operates on Python / numpy scalars; the
embedding models them with exact rationals, and the comparison and
arithmetic structure of every function is translated line by line from the
notebook cells.  Effectful code (network fetch, file writes, the browser
driver) is modelled by explicit state passing: the outcome of each external
call is an input of the embedded function, and the observable side effects
(the dedup set, the list of written file names) are threaded as state.
-/

/-- Bounding box in the (x, y, w, h) format used throughout the notebook. -/
structure Bbox where
  x : ℚ
  y : ℚ
  w : ℚ
  h : ℚ
deriving DecidableEq, Inhabited

/-- Notebook cell 10: `def bbox_ratio(bbox): _, _, w, h = bbox; return h / w`. -/
def bbox_ratio (b : Bbox) : ℚ :=
  b.h / b.w

/-- Notebook cell 11: `filter_by_constrain(bboxes, constrain=(1.5, 5), metric=bbox_ratio)`
computes `scalars = [metric(i) for i in bboxes]` and keeps exactly the boxes with
`scalars < constrain[1]` and `scalars > constrain[0]` (boolean-mask indexing, which
preserves order). -/
def filter_by_constrain (bboxes : List Bbox) (constrain : ℚ × ℚ) (metric : Bbox → ℚ) : List Bbox :=
  bboxes.filter (fun b => decide (metric b < constrain.2) && decide (metric b > constrain.1))

/-- Default `constrain` argument of `filter_by_constrain`: `(1.5, 5)`. -/
def default_constrain : ℚ × ℚ :=
  (3 / 2, 5)

/-- Inner helper of `suppress_inside_bboxes`: `bbox_area(b) = b[2] * b[3]`. -/
def bbox_area (b : Bbox) : ℚ :=
  b.w * b.h

/-- Inner helper of `suppress_inside_bboxes`: axis-aligned intersection area,
`0` when the boxes do not overlap on both axes (`x2 <= x1 or y2 <= y1`). -/
def intersection_area (b1 b2 : Bbox) : ℚ :=
  let x1 := max b1.x b2.x
  let y1 := max b1.y b2.y
  let x2 := min (b1.x + b1.w) (b2.x + b2.w)
  let y2 := min (b1.y + b1.h) (b2.y + b2.h)
  if x2 ≤ x1 ∨ y2 ≤ y1 then 0 else (x2 - x1) * (y2 - y1)

/-- Body of the double loop of `suppress_inside_bboxes` (cell 12) for one ordered
index pair `(i, j)`: skip when `i == j or not keep[i] or not keep[j]`; otherwise
compare `area_i = bbox_area(bboxes[i])` and `area_j = bbox_area(bboxes[j])`
(written inline here) and clear the keep flag of the strictly smaller box when
`inter / area(smaller) >= threshold`.  Out-of-range reads of `keep` default to
`false`, which makes the skip guard refuse them, mirroring that the Python loop
only ever uses indices below `len(bboxes)`. -/
def suppressStep (bboxes : List Bbox) (threshold : ℚ) (keep : List Bool) (i j : Nat) : List Bool :=
  if i = j ∨ keep.getD i false = false ∨ keep.getD j false = false then keep
  else if bbox_area (bboxes.getD i default) < bbox_area (bboxes.getD j default) then
    if intersection_area (bboxes.getD i default) (bboxes.getD j default) /
        bbox_area (bboxes.getD i default) ≥ threshold
    then keep.set i false else keep
  else if bbox_area (bboxes.getD j default) < bbox_area (bboxes.getD i default) then
    if intersection_area (bboxes.getD i default) (bboxes.getD j default) /
        bbox_area (bboxes.getD j default) ≥ threshold
    then keep.set j false else keep
  else keep

/-- The full double loop of `suppress_inside_bboxes`: `for i in range(n): for j in
range(n): ...` over the keep mask initialised to `[True] * len(bboxes)`. -/
def suppressPass (bboxes : List Bbox) (threshold : ℚ) : List Bool :=
  (List.range bboxes.length).foldl
    (fun keep i =>
      (List.range bboxes.length).foldl (fun keep j => suppressStep bboxes threshold keep i j) keep)
    (List.replicate bboxes.length true)

/-- Boolean-mask indexing `bboxes[keep]`: the elements whose flag is `true`, in
original order. -/
def maskFilter (l : List Bbox) (mask : List Bool) : List Bbox :=
  (l.zip mask).filterMap (fun p => if p.2 then some p.1 else none)

/-- Notebook cell 12: `suppress_inside_bboxes(bboxes, threshold=0.7)` returns
`bboxes[keep]` after the double suppression loop. -/
def suppress_inside_bboxes (bboxes : List Bbox) (threshold : ℚ) : List Bbox :=
  maskFilter bboxes (suppressPass bboxes threshold)

/-- Default `threshold` argument of `suppress_inside_bboxes`: `0.7`. -/
def default_threshold : ℚ :=
  7 / 10

/-- Outcome of the `requests.get(img_url, timeout=10)` call in `download_image`
(cell 4): either an exception (timeout, connection error, malformed URL), or a
response with a status code and a byte payload. -/
inductive FetchOutcome where
  | netError : FetchOutcome
  | status : Nat → List Nat → FetchOutcome

/-- Observable state threaded through `download_image`: the session dedup set
(`dedup_set`, a set of hex digests) and the names of the files written so far. -/
structure DownloadState where
  dedup : List String
  written : List String
deriving DecidableEq

/-- Notebook cell 4, `download_image(img_url, output_dir, dedup_set)`, translated
with its external calls as inputs: `fetched` is the outcome of `requests.get`;
`compute_md5` is the digest function of cell 3 (a pure function of the bytes,
`hashlib.md5` itself being external); `writeOk` tells whether the
`open/f.write` block succeeds (`false` models an I/O exception there, caught by
the enclosing `except` which returns `None`); `uuidToken` is the fresh
`uuid.uuid4().hex`.  The translation keeps the statement order of the source:
the digest is inserted into `dedup_set` before the file write is attempted. -/
def download_image (compute_md5 : List Nat → String) (fetched : FetchOutcome)
    (writeOk : Bool) (uuidToken : String) (s : DownloadState) :
    Option String × DownloadState :=
  match fetched with
  | FetchOutcome.netError => (none, s)
  | FetchOutcome.status code content =>
    if code = 200 then
      let hash_val := compute_md5 content
      if hash_val ∈ s.dedup then (none, s)
      else
        let s1 : DownloadState := { dedup := hash_val :: s.dedup, written := s.written }
        let unique_name := uuidToken ++ "_" ++ hash_val ++ ".png"
        if writeOk then (some unique_name, { s1 with written := unique_name :: s1.written })
        else (none, s1)
    else (none, s)

/-- Batching loop of `yandex_images_batch_generator` (cell 5), abstracted over the
stream of per-candidate results: `none` stands for a candidate that contributes
nothing (a `data:`/empty URL skipped before download, a duplicate, or a failed
fetch, all of which just advance `idx`), `some p` for a successful
`download_image` result appended to `batch`.  When the batch reaches
`batch_size` it is yielded and reset; after the source is exhausted a non-empty
final batch is flushed (`if batch: yield batch`). -/
def harvestLoop {α : Type} (batch_size : Nat) :
    List (Option α) → List α → List (List α)
  | [], batch => if batch.isEmpty then [] else [batch]
  | none :: cs, batch => harvestLoop batch_size cs batch
  | some p :: cs, batch =>
    if (batch ++ [p]).length = batch_size then (batch ++ [p]) :: harvestLoop batch_size cs []
    else harvestLoop batch_size cs (batch ++ [p])

/-- The sequence of batches yielded by `yandex_images_batch_generator` for a given
stream of candidate outcomes, starting from the empty batch. -/
def yandexBatches {α : Type} (batch_size : Nat) (candidates : List (Option α)) : List (List α) :=
  harvestLoop batch_size candidates []

/-- Exit paths of one run of the `yandex_images_batch_generator` generator. -/
inductive GenExitPath where
  | exhausted : GenExitPath
  | earlyClose : GenExitPath
  | internalFault : GenExitPath
deriving DecidableEq

/-- Whether `driver.quit()` runs on a given exit path of
`yandex_images_batch_generator` (cell 5), read off the control flow of the
source: `driver.quit()` is the last statement of the function body, after the
`while` loop and the final flush, and no `try/finally` or context manager
encloses the loop.
`exhausted`: the `break` leaves the loop normally and control falls through to
the final flush and `driver.quit()`.
`earlyClose`: the caller stops pulling from the generator (close or garbage
collection); GeneratorExit is raised at the suspended `yield batch`, which sits
inside a `try` whose only handler is `except Exception`; GeneratorExit does not
derive from Exception, so it propagates and the generator frame unwinds without
reaching `driver.quit()`.
`internalFault`: an exception raised outside the per-item `try` block (for
example in `driver.find_elements` or `driver.execute_script` in the scroll
section) propagates out of the function before `driver.quit()` is reached. -/
def driverReleasedOn : GenExitPath → Bool
  | GenExitPath.exhausted => true
  | GenExitPath.earlyClose => false
  | GenExitPath.internalFault => false

/-- Files written by one call of `extract_and_save_bboxes` (cell 14): one cropped
PNG per box, named `<base>_<idx>.png`, plus the per-image CSV `<base>.csv`
(written unconditionally by the function itself, header included). -/
structure PersistEffect where
  cropFiles : List String
  csvFiles : List String
deriving DecidableEq

/-- Notebook cell 14, `extract_and_save_bboxes`, reduced to its observable file
effects: the loop writes one crop file per box and records one CSV row per box;
the CSV file for the parent image is then written in every case. -/
def extract_and_save_bboxes (baseName : String) (bboxes : List Bbox) : PersistEffect :=
  { cropFiles := (List.range bboxes.length).map (fun idx => baseName ++ "_" ++ toString idx ++ ".png")
  , csvFiles := [baseName ++ ".csv"] }

/-- Notebook cell 13, `get_image_and_bboxes`, abstracted over its external calls:
`none` models any exception in image loading or in the mask-generator call
(the `except` branch returning `(None, None)`); otherwise the raw oracle boxes
are piped through `filter_by_constrain` and `suppress_inside_bboxes` with their
default arguments. -/
def get_image_and_bboxes (decoded : Option (List Bbox)) : Option (List Bbox) :=
  match decoded with
  | none => none
  | some raw =>
    some (suppress_inside_bboxes (filter_by_constrain raw default_constrain bbox_ratio)
      default_threshold)

/-- Notebook cell 15, `image_pipeline`: run `get_image_and_bboxes`; if the image
failed to load or no box survived, return `False` without calling
`extract_and_save_bboxes` (so nothing is written); otherwise persist and return
`True`. -/
def image_pipeline (baseName : String) (decoded : Option (List Bbox)) : Bool × PersistEffect :=
  match get_image_and_bboxes decoded with
  | none => (false, { cropFiles := [], csvFiles := [] })
  | some bbox =>
    if bbox.length = 0 then (false, { cropFiles := [], csvFiles := [] })
    else (true, extract_and_save_bboxes baseName bbox)

theorem getD_set_false_mono (l : List Bool) (a m : Nat)
    (h : (l.set a false).getD m false = true) : l.getD m false = true := by
  induction l generalizing a m with
  | nil => simp at h
  | cons x xs ih =>
    cases a with
    | zero =>
      cases m with
      | zero => simp at h
      | succ m => simpa using h
    | succ a =>
      cases m with
      | zero => simpa using h
      | succ m => exact ih a m (by simpa using h)

theorem getD_set_false_self (l : List Bool) (a : Nat) (ha : a < l.length) :
    (l.set a false).getD a false = false := by
  induction l generalizing a with
  | nil => simp at ha
  | cons x xs ih =>
    cases a with
    | zero => simp
    | succ a => simpa using ih a (by simpa using ha)

theorem foldl_getD_mono {ι : Type} (f : List Bool → ι → List Bool)
    (hf : ∀ keep x m, (f keep x).getD m false = true → keep.getD m false = true)
    (l : List ι) (keep : List Bool) (m : Nat)
    (h : (l.foldl f keep).getD m false = true) : keep.getD m false = true := by
  induction l generalizing keep with
  | nil => simpa using h
  | cons x xs ih => exact hf keep x m (ih (f keep x) (by simpa using h))

theorem foldl_length_eq {ι : Type} (f : List Bool → ι → List Bool)
    (hf : ∀ keep x, (f keep x).length = keep.length)
    (l : List ι) (keep : List Bool) : (l.foldl f keep).length = keep.length := by
  induction l generalizing keep with
  | nil => rfl
  | cons x xs ih => rw [List.foldl_cons, ih (f keep x), hf keep x]

theorem suppressStep_getD_mono (bboxes : List Bbox) (threshold : ℚ) (keep : List Bool)
    (i j m : Nat) (h : (suppressStep bboxes threshold keep i j).getD m false = true) :
    keep.getD m false = true := by
  unfold suppressStep at h
  split at h
  · exact h
  · split at h
    · split at h
      · exact getD_set_false_mono _ _ _ h
      · exact h
    · split at h
      · split at h
        · exact getD_set_false_mono _ _ _ h
        · exact h
      · exact h

theorem suppressStep_length (bboxes : List Bbox) (threshold : ℚ) (keep : List Bool)
    (i j : Nat) : (suppressStep bboxes threshold keep i j).length = keep.length := by
  unfold suppressStep
  split
  · rfl
  · split
    · split
      · exact List.length_set keep i false
      · rfl
    · split
      · split
        · exact List.length_set keep j false
        · rfl
      · rfl

theorem maskFilter_sublist (l : List Bbox) (mask : List Bool) :
    (maskFilter l mask).Sublist l := by
  induction l generalizing mask with
  | nil => simp [maskFilter]
  | cons x xs ih =>
    cases mask with
    | nil => simp [maskFilter]
    | cons c m =>
      cases c with
      | false => simpa [maskFilter, List.filterMap_cons] using (ih m).cons x
      | true => simpa [maskFilter, List.filterMap_cons] using (ih m).cons₂ x

theorem maskFilter_mem (l : List Bbox) (mask : List Bool) (b : Bbox)
    (hb : b ∈ maskFilter l mask) :
    ∃ i, i < l.length ∧ mask.getD i false = true ∧ l.getD i default = b := by
  induction l generalizing mask with
  | nil => simp [maskFilter] at hb
  | cons x xs ih =>
    cases mask with
    | nil => simp [maskFilter] at hb
    | cons c m =>
      cases c with
      | false =>
        obtain ⟨i, h1, h2, h3⟩ := ih m (by simpa [maskFilter, List.filterMap_cons] using hb)
        exact ⟨i + 1, by simpa using Nat.succ_lt_succ h1, by simpa using h2, by simpa using h3⟩
      | true =>
        have hb2 : b = x ∨ b ∈ maskFilter xs m := by
          simpa [maskFilter, List.filterMap_cons] using hb
        cases hb2 with
        | inl he => exact ⟨0, by simp, by simp, by simp [he]⟩
        | inr hm =>
          obtain ⟨i, h1, h2, h3⟩ := ih m hm
          exact ⟨i + 1, by simpa using Nat.succ_lt_succ h1, by simpa using h2, by simpa using h3⟩

/-- C1: during the suppression pass of suppress_inside_bboxes, an ordered pair of
still-kept distinct regions is compared; when the areas are exactly equal the
keep mask is unchanged, and otherwise the strictly smaller region of the pair is
discarded iff intersection divided by the smaller area reaches the threshold;
the axis-aligned intersection is zero whenever the boxes fail to overlap on one
of the two axes. -/
theorem suppressStep_pair_rule (bboxes : List Bbox) (threshold : ℚ) (keep : List Bool)
    (i j : Nat) (hij : i ≠ j)
    (hki : keep.getD i false = true) (hkj : keep.getD j false = true) :
    (bbox_area (bboxes.getD i default) = bbox_area (bboxes.getD j default) →
      suppressStep bboxes threshold keep i j = keep) ∧
    (bbox_area (bboxes.getD i default) < bbox_area (bboxes.getD j default) →
      suppressStep bboxes threshold keep i j =
        if intersection_area (bboxes.getD i default) (bboxes.getD j default) /
            bbox_area (bboxes.getD i default) ≥ threshold
        then keep.set i false else keep) ∧
    (bbox_area (bboxes.getD j default) < bbox_area (bboxes.getD i default) →
      suppressStep bboxes threshold keep i j =
        if intersection_area (bboxes.getD i default) (bboxes.getD j default) /
            bbox_area (bboxes.getD j default) ≥ threshold
        then keep.set j false else keep) ∧
    (∀ b1 b2 : Bbox,
      min (b1.x + b1.w) (b2.x + b2.w) ≤ max b1.x b2.x ∨
      min (b1.y + b1.h) (b2.y + b2.h) ≤ max b1.y b2.y →
      intersection_area b1 b2 = 0) := by
  have hguard : ¬(i = j ∨ keep.getD i false = false ∨ keep.getD j false = false) := by
    simp only [hki, hkj]
    simp [hij]
  refine ⟨?_, ?_, ?_, ?_⟩
  · intro heq
    unfold suppressStep
    rw [if_neg hguard, if_neg (by rw [heq]; exact lt_irrefl _),
      if_neg (by rw [heq]; exact lt_irrefl _)]
  · intro hlt
    unfold suppressStep
    rw [if_neg hguard, if_pos hlt]
  · intro hlt
    unfold suppressStep
    rw [if_neg hguard, if_neg (lt_asymm hlt), if_pos hlt]
  · intro b1 b2 hsep
    simp only [intersection_area]
    rw [if_pos hsep]

/-- C1 witness: a 50 by 50 box fully inside a 100 by 100 box is discarded by the
pair comparison at threshold 0.7. -/
theorem suppressStep_pair_rule_witness :
    suppressStep [⟨0, 0, 100, 100⟩, ⟨10, 10, 50, 50⟩] (7 / 10) [true, true] 0 1
      = [true, false] := by
  have h := (suppressStep_pair_rule [⟨0, 0, 100, 100⟩, ⟨10, 10, 50, 50⟩] (7 / 10)
      [true, true] 0 1 (by decide) rfl rfl).2.2.1
      (by norm_num [bbox_area])
  rw [h, if_pos (by norm_num [intersection_area, bbox_area, max_def, min_def])]
  rfl

/-- C2: the aspect-ratio filter keeps exactly the boxes whose ratio h / w lies
strictly between the bounds, each box judged independently, and on the concrete
ratio list 1.0, 2.0, 4.9, 5.0, 6.0 with bounds (1.5, 5) exactly the boxes of
ratio 2.0 and 4.9 survive. -/
theorem filter_by_constrain_spec :
    (∀ (bboxes : List Bbox) (lo hi : ℚ) (b : Bbox),
        b ∈ filter_by_constrain bboxes (lo, hi) bbox_ratio ↔
          b ∈ bboxes ∧ lo < bbox_ratio b ∧ bbox_ratio b < hi) ∧
    filter_by_constrain
        [⟨0, 0, 10, 10⟩, ⟨0, 0, 10, 20⟩, ⟨0, 0, 10, 49⟩, ⟨0, 0, 10, 50⟩, ⟨0, 0, 10, 60⟩]
        default_constrain bbox_ratio
      = [⟨0, 0, 10, 20⟩, ⟨0, 0, 10, 49⟩] := by
  constructor
  · intro bboxes lo hi b
    simp only [filter_by_constrain, List.mem_filter, Bool.and_eq_true, decide_eq_true_eq,
      gt_iff_lt]
    tauto
  · norm_num [filter_by_constrain, bbox_ratio, default_constrain, List.filter_cons]

/-- C6: fetching the same byte content twice with a 200 status and a successful
write yields one saved image then one no-result, and exactly one file name is
added to the written list. -/
theorem download_image_dedup_exactly_once (compute_md5 : List Nat → String)
    (content : List Nat) (u1 u2 : String) (s0 : DownloadState)
    (hfresh : compute_md5 content ∉ s0.dedup) :
    (download_image compute_md5 (FetchOutcome.status 200 content) true u1 s0).1.isSome = true ∧
    (download_image compute_md5 (FetchOutcome.status 200 content) true u2
        (download_image compute_md5 (FetchOutcome.status 200 content) true u1 s0).2).1 = none ∧
    (download_image compute_md5 (FetchOutcome.status 200 content) true u2
        (download_image compute_md5 (FetchOutcome.status 200 content) true u1 s0).2).2.written
      = (u1 ++ "_" ++ compute_md5 content ++ ".png") :: s0.written := by
  simp [download_image, hfresh]

/-- C6 witness: a concrete two-fetch run with identical payloads. -/
theorem download_image_dedup_exactly_once_witness :
    (download_image (fun _ => "h") (FetchOutcome.status 200 [0]) true "a" ⟨[], []⟩).1.isSome
        = true ∧
    (download_image (fun _ => "h") (FetchOutcome.status 200 [0]) true "b"
        (download_image (fun _ => "h") (FetchOutcome.status 200 [0]) true "a" ⟨[], []⟩).2).1
        = none ∧
    (download_image (fun _ => "h") (FetchOutcome.status 200 [0]) true "b"
        (download_image (fun _ => "h") (FetchOutcome.status 200 [0]) true "a" ⟨[], []⟩).2).2.written
      = ("a" ++ "_" ++ "h" ++ ".png") :: ([] : List String) :=
  download_image_dedup_exactly_once (fun _ => "h") [0] "a" "b" ⟨[], []⟩ (by simp)

/-- C7 counterexample: a fetch whose file write fails returns no result yet
inserts the fingerprint into the session dedup set, so a failing execution does
mutate the set. -/
theorem download_image_write_fault_mutates_dedup :
    (download_image (fun _ => "h") (FetchOutcome.status 200 [0]) false "u" ⟨[], []⟩).1 = none ∧
    (download_image (fun _ => "h") (FetchOutcome.status 200 [0]) false "u" ⟨[], []⟩).2.dedup
      = ["h"] := by
  constructor <;> rfl

/-- C7 amended: a network fault or a non-success status returns no result and
leaves the whole state unchanged; an I/O fault during the file write still
returns no result, but by then the fingerprint has already been inserted, and
that insertion is the only state change. -/
theorem download_image_failure_state (compute_md5 : List Nat → String) (code : Nat)
    (content : List Nat) (writeOk : Bool) (u : String) (s : DownloadState) :
    download_image compute_md5 FetchOutcome.netError writeOk u s = (none, s) ∧
    (code ≠ 200 →
      download_image compute_md5 (FetchOutcome.status code content) writeOk u s = (none, s)) ∧
    (compute_md5 content ∉ s.dedup →
      download_image compute_md5 (FetchOutcome.status 200 content) false u s
        = (none, { dedup := compute_md5 content :: s.dedup, written := s.written })) := by
  refine ⟨rfl, ?_, ?_⟩
  · intro hc
    simp [download_image, hc]
  · intro hf
    simp [download_image, hf]

/-- C7 amended witness: the three failure shapes at concrete inputs. -/
theorem download_image_failure_state_witness :
    download_image (fun _ => "h") FetchOutcome.netError true "u" ⟨[], []⟩ = (none, ⟨[], []⟩) ∧
    download_image (fun _ => "h") (FetchOutcome.status 404 [0]) true "u" ⟨[], []⟩
      = (none, ⟨[], []⟩) ∧
    download_image (fun _ => "h") (FetchOutcome.status 200 [0]) false "u" ⟨[], []⟩
      = (none, ⟨["h"], []⟩) := by
  obtain ⟨h1, h2, h3⟩ := download_image_failure_state (fun _ => "h") 404 [0] true "u" ⟨[], []⟩
  exact ⟨h1, h2 (by decide), h3 (by simp)⟩

/-- C8: an image whose filtering yields zero accepted regions makes the pipeline
step return a falsy status, and neither crop files nor a CSV record are written
because extract_and_save_bboxes is never invoked. -/
theorem image_pipeline_zero_regions (baseName : String) (raw : List Bbox)
    (h : suppress_inside_bboxes (filter_by_constrain raw default_constrain bbox_ratio)
        default_threshold = []) :
    (image_pipeline baseName (some raw)).1 = false ∧
    (image_pipeline baseName (some raw)).2.cropFiles = [] ∧
    (image_pipeline baseName (some raw)).2.csvFiles = [] := by
  simp [image_pipeline, get_image_and_bboxes, h]

/-- C8 witness: a single square box fails the aspect filter, so the pipeline
reports false and writes nothing. -/
theorem image_pipeline_zero_regions_witness :
    (image_pipeline "img" (some [⟨0, 0, 1, 1⟩])).1 = false ∧
    (image_pipeline "img" (some [⟨0, 0, 1, 1⟩])).2.cropFiles = [] ∧
    (image_pipeline "img" (some [⟨0, 0, 1, 1⟩])).2.csvFiles = [] :=
  image_pipeline_zero_regions "img" [⟨0, 0, 1, 1⟩]
    (by norm_num [suppress_inside_bboxes, suppressPass, maskFilter, filter_by_constrain,
      bbox_ratio, default_constrain, List.filter_cons])

/-- C9 counterexample: when the caller stops pulling from the generator, the
control flow of yandex_images_batch_generator never reaches driver.quit, so the
automation session is not released on that exit path. -/
theorem driver_not_released_on_early_close :
    driverReleasedOn GenExitPath.earlyClose = false := rfl

/-- C9 amended: the automation session is released exactly on normal exhaustion
of the source; early caller termination and an internal error outside the
per-item handler both leave it unreleased. -/
theorem driver_released_iff_exhausted (e : GenExitPath) :
    driverReleasedOn e = true ↔ e = GenExitPath.exhausted := by
  cases e <;> simp [driverReleasedOn]

/-- C10: both geometric stages and their composition return a subsequence of the
input list: surviving regions keep their original relative order. -/
theorem geometric_filter_order_preserved (bboxes : List Bbox) (constrain : ℚ × ℚ)
    (metric : Bbox → ℚ) (threshold : ℚ) :
    (filter_by_constrain bboxes constrain metric).Sublist bboxes ∧
    (suppress_inside_bboxes bboxes threshold).Sublist bboxes ∧
    (suppress_inside_bboxes (filter_by_constrain bboxes constrain metric) threshold).Sublist
      bboxes := by
  refine ⟨List.filter_sublist _, maskFilter_sublist _ _, ?_⟩
  exact (maskFilter_sublist _ _).trans (List.filter_sublist _)

/-- C4: a raw box list with nonnegative widths and heights only yields accepted
regions with strictly positive width and height after the aspect filter and the
suppression pass with their default arguments. -/
theorem accepted_region_positive (raw : List Bbox)
    (hnn : ∀ b ∈ raw, 0 ≤ b.w ∧ 0 ≤ b.h) (out : List Bbox)
    (hout : get_image_and_bboxes (some raw) = some out) :
    ∀ b ∈ out, 0 < b.w ∧ 0 < b.h := by
  intro b hb
  have hout2 : out
      = suppress_inside_bboxes (filter_by_constrain raw default_constrain bbox_ratio)
          default_threshold := by
    simpa [get_image_and_bboxes] using hout.symm
  rw [hout2] at hb
  have hbf : b ∈ filter_by_constrain raw default_constrain bbox_ratio :=
    (maskFilter_sublist _ _).subset hb
  obtain ⟨hmemraw, hcond⟩ := List.mem_filter.mp hbf
  simp only [Bool.and_eq_true, decide_eq_true_eq, gt_iff_lt] at hcond
  obtain ⟨hhi, hlo⟩ := hcond
  have hlo2 : (3 / 2 : ℚ) < b.h / b.w := by
    simpa [default_constrain, bbox_ratio] using hlo
  obtain ⟨hw0, hh0⟩ := hnn b hmemraw
  have hwpos : 0 < b.w := by
    rcases lt_or_eq_of_le hw0 with hlt | heq
    · exact hlt
    · exfalso
      rw [← heq] at hlo2
      norm_num at hlo2
  refine ⟨hwpos, ?_⟩
  have h1 : (3 / 2 : ℚ) * b.w < b.h := (lt_div_iff₀ hwpos).mp hlo2
  have h2 : (0 : ℚ) < 3 / 2 * b.w := by positivity
  exact lt_trans h2 h1

/-- C4 witness: a 2 by 4 box with nonnegative dimensions survives both stages and
indeed has positive width and height. -/
theorem accepted_region_positive_witness :
    0 < (Bbox.mk 0 0 2 4).w ∧ 0 < (Bbox.mk 0 0 2 4).h :=
  accepted_region_positive [⟨0, 0, 2, 4⟩] (by norm_num) [⟨0, 0, 2, 4⟩]
    (by norm_num [get_image_and_bboxes, suppress_inside_bboxes, suppressPass, suppressStep,
      maskFilter, filter_by_constrain, bbox_ratio, default_constrain, default_threshold,
      List.filter_cons, List.range_succ, List.filterMap_cons])
    ⟨0, 0, 2, 4⟩ (by simp)

theorem dropLast_cons_forall {β : Type} (P : List β → Prop) (a : List β) (rest : List (List β))
    (ha : P a) (hrest : ∀ b ∈ rest.dropLast, P b) : ∀ b ∈ (a :: rest).dropLast, P b := by
  cases rest with
  | nil => intro b hb; simp at hb
  | cons r0 rs =>
    intro b hb
    rw [List.dropLast_cons₂] at hb
    rcases List.mem_cons.mp hb with hh | hh
    · rw [hh]; exact ha
    · exact hrest b hh

theorem harvestLoop_all_some {α : Type} (k : Nat) (hk : 0 < k) :
    ∀ (l : List α) (batch : List α), batch.length < k →
      (harvestLoop k (l.map some) batch).flatten = batch ++ l ∧
      (harvestLoop k (l.map some) batch).length = (batch.length + l.length + k - 1) / k ∧
      (∀ b ∈ (harvestLoop k (l.map some) batch).dropLast, b.length = k) := by
  intro l
  induction l with
  | nil =>
    intro batch hb
    cases batch with
    | nil =>
      have hdiv : (k - 1) / k = 0 := Nat.div_eq_of_lt (by omega)
      exact ⟨by simp [harvestLoop], by simp [harvestLoop, hdiv], by simp [harvestLoop]⟩
    | cons b0 bs =>
      have hb2 : bs.length + 1 < k := by simpa using hb
      refine ⟨by simp [harvestLoop], ?_, by simp [harvestLoop]⟩
      simp only [List.map_nil, harvestLoop]
      rw [if_neg (by simp)]
      have h1 : (b0 :: bs).length + ([] : List α).length + k - 1 = bs.length + k := by
        simp only [List.length_cons, List.length_nil]
        omega
      rw [h1, Nat.add_div_right _ hk, Nat.div_eq_of_lt (by omega)]
      simp
  | cons x xs ih =>
    intro batch hb
    simp only [List.map_cons, harvestLoop]
    by_cases hfull : (batch ++ [x]).length = k
    · rw [if_pos hfull]
      have hfull2 : batch.length + 1 = k := by simpa using hfull
      obtain ⟨ihj, ihl, ihd⟩ := ih [] (by simpa using hk)
      refine ⟨?_, ?_, ?_⟩
      · simp [ihj]
      · simp only [List.length_cons, ihl]
        have harg : batch.length + (xs.length + 1) + k - 1
            = (([] : List α).length + xs.length + k - 1) + k := by
          simp only [List.length_nil]
          omega
        rw [harg, Nat.add_div_right _ hk]
      · exact dropLast_cons_forall (fun b => b.length = k) _ _ (by simpa using hfull) ihd
    · rw [if_neg hfull]
      have hfull2 : batch.length + 1 ≠ k := by simpa using hfull
      obtain ⟨ihj, ihl, ihd⟩ := ih (batch ++ [x])
        (by simp only [List.length_append, List.length_singleton]; omega)
      refine ⟨?_, ?_, ?_⟩
      · rw [ihj]
        simp
      · rw [ihl]
        have hlen1 : (batch ++ [x]).length = batch.length + 1 := by simp
        rw [hlen1, List.length_cons]
        have harg : batch.length + 1 + xs.length + k - 1
            = batch.length + (xs.length + 1) + k - 1 := by omega
        rw [harg]
      · exact ihd

/-- C5: on a stream of N valid, unique, fetch-succeeding candidates with batch
size k the harvester yields ceil(N / k) batches, all of size k except possibly
the flushed final partial one, and the concatenation of the batches is exactly
the item stream in discovery order. -/
theorem yandex_batch_sizing {α : Type} (k : Nat) (hk : 0 < k) (items : List α) :
    (yandexBatches k (items.map some)).length = (items.length + k - 1) / k ∧
    (∀ b ∈ (yandexBatches k (items.map some)).dropLast, b.length = k) ∧
    (yandexBatches k (items.map some)).flatten = items := by
  obtain ⟨hj, hl, hd⟩ := harvestLoop_all_some k hk items [] (by simpa using hk)
  exact ⟨by simpa using hl, hd, by simpa using hj⟩

/-- C5 witness: three items with batch size two yield two batches, the first of
size two, concatenating back to the stream. -/
theorem yandex_batch_sizing_witness :
    (yandexBatches 2 ([1, 2, 3].map some)).length = (3 + 2 - 1) / 2 ∧
    (∀ b ∈ (yandexBatches 2 ([1, 2, 3].map some)).dropLast, b.length = 2) ∧
    (yandexBatches 2 ([1, 2, 3].map some)).flatten = [1, 2, 3] :=
  yandex_batch_sizing 2 (by decide) [1, 2, 3]

theorem suppress_inner_kill (bboxes : List Bbox) (threshold : ℚ) (i j : Nat)
    (hij : i ≠ j) (hi : i < bboxes.length)
    (hlt : bbox_area (bboxes.getD i default) < bbox_area (bboxes.getD j default))
    (hcond : intersection_area (bboxes.getD i default) (bboxes.getD j default) /
        bbox_area (bboxes.getD i default) ≥ threshold) :
    ∀ (js : List Nat) (keep : List Bool), keep.length = bboxes.length → j ∈ js →
      ¬(((js.foldl (fun kp jj => suppressStep bboxes threshold kp i jj) keep).getD i false
            = true) ∧
        ((js.foldl (fun kp jj => suppressStep bboxes threshold kp i jj) keep).getD j false
            = true)) := by
  intro js
  induction js with
  | nil =>
    intro keep hlen hj
    simp at hj
  | cons j0 rest ih =>
    intro keep hlen hjmem
    rintro ⟨hfi, hfj⟩
    rw [List.foldl_cons] at hfi hfj
    rcases List.mem_cons.mp hjmem with hj0 | hjr
    · subst hj0
      have h1i : (suppressStep bboxes threshold keep i j).getD i false = true :=
        foldl_getD_mono _ (fun kp x m => suppressStep_getD_mono bboxes threshold kp i x m)
          rest _ i hfi
      have h1j : (suppressStep bboxes threshold keep i j).getD j false = true :=
        foldl_getD_mono _ (fun kp x m => suppressStep_getD_mono bboxes threshold kp i x m)
          rest _ j hfj
      have hki : keep.getD i false = true := suppressStep_getD_mono _ _ _ _ _ _ h1i
      have hkj : keep.getD j false = true := suppressStep_getD_mono _ _ _ _ _ _ h1j
      have hstep := (suppressStep_pair_rule bboxes threshold keep i j hij hki hkj).2.1 hlt
      rw [hstep, if_pos hcond, getD_set_false_self keep i (by omega)] at h1i
      exact Bool.false_ne_true h1i
    · exact ih (suppressStep bboxes threshold keep i j0)
        (by rw [suppressStep_length, hlen]) hjr ⟨hfi, hfj⟩

theorem suppress_outer_kill (bboxes : List Bbox) (threshold : ℚ) (i j : Nat)
    (hij : i ≠ j) (hi : i < bboxes.length) (hj : j < bboxes.length)
    (hlt : bbox_area (bboxes.getD i default) < bbox_area (bboxes.getD j default))
    (hcond : intersection_area (bboxes.getD i default) (bboxes.getD j default) /
        bbox_area (bboxes.getD i default) ≥ threshold) :
    ∀ (is : List Nat) (keep : List Bool), keep.length = bboxes.length → i ∈ is →
      ¬(((is.foldl (fun kp ii => (List.range bboxes.length).foldl
              (fun kp2 jj => suppressStep bboxes threshold kp2 ii jj) kp) keep).getD i false
            = true) ∧
        ((is.foldl (fun kp ii => (List.range bboxes.length).foldl
              (fun kp2 jj => suppressStep bboxes threshold kp2 ii jj) kp) keep).getD j false
            = true)) := by
  have hinner_mono : ∀ (kp : List Bool) (x m : Nat),
      ((List.range bboxes.length).foldl
          (fun kp2 jj => suppressStep bboxes threshold kp2 x jj) kp).getD m false = true →
      kp.getD m false = true :=
    fun kp x m hx =>
      foldl_getD_mono _ (fun kp2 y m2 => suppressStep_getD_mono bboxes threshold kp2 x y m2)
        _ kp m hx
  intro is
  induction is with
  | nil =>
    intro keep hlen hmem
    simp at hmem
  | cons i0 rest ih =>
    intro keep hlen himem
    rintro ⟨hfi, hfj⟩
    rw [List.foldl_cons] at hfi hfj
    rcases List.mem_cons.mp himem with hi0 | hir
    · subst hi0
      have h1i := foldl_getD_mono _ hinner_mono rest _ i hfi
      have h1j := foldl_getD_mono _ hinner_mono rest _ j hfj
      exact suppress_inner_kill bboxes threshold i j hij hi hlt hcond
        (List.range bboxes.length) keep hlen (List.mem_range.mpr hj) ⟨h1i, h1j⟩
    · refine ih ((List.range bboxes.length).foldl
          (fun kp2 jj => suppressStep bboxes threshold kp2 i0 jj) keep) ?_ hir ⟨hfi, hfj⟩
      rw [foldl_length_eq _ (fun kp x => suppressStep_length bboxes threshold kp i0 x), hlen]

/-- C3: in the output of suppress_inside_bboxes no two surviving regions of
distinct areas have fractional overlap, measured against the smaller area, that
reaches the threshold: the suppression pass would have discarded the smaller
one. -/
theorem suppress_no_contained_pair (bboxes : List Bbox) (threshold : ℚ) (b1 b2 : Bbox)
    (h1 : b1 ∈ suppress_inside_bboxes bboxes threshold)
    (h2 : b2 ∈ suppress_inside_bboxes bboxes threshold)
    (harea : bbox_area b1 < bbox_area b2) :
    intersection_area b1 b2 / bbox_area b1 < threshold := by
  by_contra hge
  push_neg at hge
  obtain ⟨i, hi, hkeepi, hboxi⟩ := maskFilter_mem _ _ _ h1
  obtain ⟨j, hj, hkeepj, hboxj⟩ := maskFilter_mem _ _ _ h2
  have hij : i ≠ j := by
    intro he
    rw [he, hboxj] at hboxi
    rw [hboxi] at harea
    exact lt_irrefl _ harea
  exact suppress_outer_kill bboxes threshold i j hij hi hj
    (by rw [hboxi, hboxj]; exact harea)
    (by rw [hboxi, hboxj]; exact hge)
    (List.range bboxes.length) (List.replicate bboxes.length true)
    (List.length_replicate _ _) (List.mem_range.mpr hi) ⟨hkeepi, hkeepj⟩

/-- C3 witness: two disjoint boxes of areas 1 and 4 both survive the pass and
their overlap fraction 0 is below the default threshold. -/
theorem suppress_no_contained_pair_witness :
    intersection_area ⟨0, 0, 1, 1⟩ ⟨10, 10, 2, 2⟩ / bbox_area ⟨0, 0, 1, 1⟩ < 7 / 10 :=
  suppress_no_contained_pair [⟨0, 0, 1, 1⟩, ⟨10, 10, 2, 2⟩] (7 / 10) ⟨0, 0, 1, 1⟩ ⟨10, 10, 2, 2⟩
    (by norm_num [suppress_inside_bboxes, suppressPass, suppressStep, maskFilter,
      bbox_area, intersection_area, List.range_succ, max_def, min_def, List.filterMap_cons,
      List.replicate_succ, List.zip_cons_cons])
    (by norm_num [suppress_inside_bboxes, suppressPass, suppressStep, maskFilter,
      bbox_area, intersection_area, List.range_succ, max_def, min_def, List.filterMap_cons,
      List.replicate_succ, List.zip_cons_cons])
    (by norm_num [bbox_area])
